import Mathlib

/-!
Verification of the geometric core of the WeaverGen settlement generator.

The source is translated into a shallow embedding over exact rationals:
`f32`/`f64` coordinates become `ℚ`, and the handful of irrational machine
operations (square root, the trig pair applied to a random angle, `exp2`)
are abstracted into a `FloatOps` record that is passed explicitly, so that
structural theorems quantify over every possible realisation of them.
Comparisons of the form `dist < t` in the source are modelled by the exact
equivalent `0 < t ∧ dist² < t²`, and the `atan2`-based angular sort is
modelled by the exact angular order on rational vectors (quadrant class
followed by the cross product), which is the real-number meaning of
comparing `atan2` values.  Angles produced by the subdivision's random
rotation are represented by their coefficient of π (the code only ever
feeds them to `cos`/`sin`, modelled by `FloatOps.cosPi`/`FloatOps.sinPi`).

Random draws from `StdRng` are modelled as an explicit stream `ℕ → ℚ` of
unit-interval samples consumed in program order.
-/

attribute [local semireducible] Rat.add Rat.mul Rat.inv Rat.sub

namespace WeaverGen

/-- 2D point / vector with exact rational coordinates (models `Vec2`, and
`Vec3` values whose `y` component is always `0.0`). -/
structure V2 where
  x : ℚ
  y : ℚ
deriving DecidableEq, Repr

theorem V2.ext' (a b : V2) (hx : a.x = b.x) (hy : a.y = b.y) : a = b := by
  cases a; cases b; simp_all

/-- `f32::abs`, computably. -/
def ratAbs (q : ℚ) : ℚ := if q < 0 then -q else q

theorem ratAbs_eq_abs (q : ℚ) : ratAbs q = |q| := by
  unfold ratAbs
  by_cases h : q < 0
  · rw [if_pos h, abs_of_neg h]
  · rw [if_neg h, abs_of_nonneg (not_lt.mp h)]

instance : Add V2 := ⟨fun a b => ⟨a.x + b.x, a.y + b.y⟩⟩

instance : Sub V2 := ⟨fun a b => ⟨a.x - b.x, a.y - b.y⟩⟩

instance : Neg V2 := ⟨fun a => ⟨-a.x, -a.y⟩⟩

instance : SMul ℚ V2 := ⟨fun c a => ⟨c * a.x, c * a.y⟩⟩

instance : Zero V2 := ⟨⟨0, 0⟩⟩

@[simp] theorem V2.add_x (a b : V2) : (a + b).x = a.x + b.x := rfl

@[simp] theorem V2.add_y (a b : V2) : (a + b).y = a.y + b.y := rfl

@[simp] theorem V2.sub_x (a b : V2) : (a - b).x = a.x - b.x := rfl

@[simp] theorem V2.sub_y (a b : V2) : (a - b).y = a.y - b.y := rfl

@[simp] theorem V2.neg_x (a : V2) : (-a).x = -a.x := rfl

@[simp] theorem V2.neg_y (a : V2) : (-a).y = -a.y := rfl

@[simp] theorem V2.smul_x (c : ℚ) (a : V2) : (c • a).x = c * a.x := rfl

@[simp] theorem V2.smul_y (c : ℚ) (a : V2) : (c • a).y = c * a.y := rfl

@[simp] theorem V2.zero_x : (0 : V2).x = 0 := rfl

@[simp] theorem V2.zero_y : (0 : V2).y = 0 := rfl

/-- Dot product. -/
def V2.dot (a b : V2) : ℚ := a.x * b.x + a.y * b.y

/-- 2D cross product (z component of the 3D cross product). -/
def V2.cross (a b : V2) : ℚ := a.x * b.y - a.y * b.x

/-- Squared euclidean distance (exact model of `Vec2::distance` squared). -/
def V2.dist2 (a b : V2) : ℚ := (a.x - b.x) ^ 2 + (a.y - b.y) ^ 2

/-- Exact model of the comparison `a.distance(b) < t` on nonnegative
distances: true iff `t` is positive and the squared distance is below
`t²`. -/
def distLt (a b : V2) (t : ℚ) : Bool := decide (0 < t ∧ V2.dist2 a b < t ^ 2)

/-- A polygon is an ordered vertex list, implicitly closed. -/
def Poly := List V2

instance : DecidableEq Poly := inferInstanceAs (DecidableEq (List V2))

/-- Irrational machine primitives of the source, abstracted: `sqrt` models
`f32::sqrt`, `cosPi c`/`sinPi c` model `cos (c·π)`/`sin (c·π)` (the source
only applies trig to angles we represent by their π-coefficient), `cos`/`sin`
model plain-radian trig, and `exp2` models `2.0_f32.powf`. -/
structure FloatOps where
  sqrt : ℚ → ℚ
  cosPi : ℚ → ℚ
  sinPi : ℚ → ℚ
  cos : ℚ → ℚ
  sin : ℚ → ℚ
  exp2 : ℚ → ℚ

/-- A trivial instantiation of the machine primitives, used to build
concrete witnesses of the structural theorems that hold for every
instantiation. -/
def trivOps : FloatOps := ⟨fun _ => 0, fun _ => 1, fun _ => 0, fun _ => 1, fun _ => 0, fun _ => 1⟩

/-! ## Geometry utilities (`src/systems/mesh/poly/utils.rs`) -/

/-- Determinant of the 2×2 system in `line_segment_intersection`
(`denom = s1.x * s2.y - s2.x * s1.y`). -/
def segDenom (p1 p2 p3 p4 : V2) : ℚ :=
  let s1 := p2 - p1
  let s2 := p4 - p3
  s1.x * s2.y - s2.x * s1.y

/-- The parameter `s` (position along segment `p3 p4`) of
`line_segment_intersection`. -/
def segS (p1 p2 p3 p4 : V2) : ℚ :=
  let s1 := p2 - p1
  (s1.x * (p1.y - p3.y) - s1.y * (p1.x - p3.x)) / segDenom p1 p2 p3 p4

/-- The parameter `t` (position along segment `p1 p2`) of
`line_segment_intersection`. -/
def segT (p1 p2 p3 p4 : V2) : ℚ :=
  let s2 := p4 - p3
  (s2.x * (p1.y - p3.y) - s2.y * (p1.x - p3.x)) / segDenom p1 p2 p3 p4

/-- `line_segment_intersection` from `utils.rs`: Cramer's rule, `none` for
near-parallel segments (`|denom| < 1e-6`) or parameters outside `[0,1]`. -/
def lineSegmentIntersection (p1 p2 p3 p4 : V2) : Option V2 :=
  if ratAbs (segDenom p1 p2 p3 p4) < 1 / 1000000 then none
  else if 0 ≤ segS p1 p2 p3 p4 ∧ segS p1 p2 p3 p4 ≤ 1 ∧
      0 ≤ segT p1 p2 p3 p4 ∧ segT p1 p2 p3 p4 ≤ 1 then
    some (p1 + segT p1 p2 p3 p4 • (p2 - p1))
  else none

/-- `polygon_area` from `utils.rs`: signed shoelace area, `0` below 3
vertices. -/
def polygonArea (polygon : Poly) : ℚ :=
  if polygon.length < 3 then 0
  else
    let n := polygon.length
    ((List.range n).foldl (fun acc i =>
      let pi := polygon.getD i 0
      let pj := polygon.getD ((i + 1) % n) 0
      acc + (pi.x * pj.y - pj.x * pi.y)) 0) / 2

/-- `polygon_centroid` from `utils.rs`. -/
def polygonCentroid (polygon : Poly) (area : ℚ) : V2 :=
  if polygon.length < 3 ∨ area = 0 then 0
  else
    let n := polygon.length
    let c := (List.range n).foldl (fun (acc : V2) i =>
      let pi := polygon.getD i 0
      let pj := polygon.getD ((i + 1) % n) 0
      let p := pi.x * pj.y - pj.x * pi.y
      ⟨acc.x + (pi.x + pj.x) * p, acc.y + (pi.y + pj.y) * p⟩) 0
    ⟨c.x / (6 * area), c.y / (6 * area)⟩

/-- `point_in_polygon` from `utils.rs`: ray-casting crossing test. -/
def pointInPolygon (point : V2) (polygon : List V2) : Bool :=
  if polygon.length < 3 then false
  else
    let n := polygon.length
    (List.range n).foldl (fun (state : Bool × ℕ) i =>
      let (inside, j) := state
      let pi := polygon.getD i 0
      let pj := polygon.getD j 0
      let cross := (decide ((pi.y > point.y) ≠ (pj.y > point.y))) &&
        decide (point.x < (pj.x - pi.x) * (point.y - pi.y) / (pj.y - pi.y) + pi.x)
      (if cross then !inside else inside, i)) (false, n - 1) |>.1

/-! ## Recursive plot subdivision (`src/systems/mesh/poly/subdivision.rs`) -/

/-- `f32::clamp`. -/
def ratClamp (x lo hi : ℚ) : ℚ := if x < lo then lo else if hi < x then hi else x

/-- `vlongest_edge` from `subdivision.rs`.  The source compares edge
lengths; we track squared lengths, which orders identically since lengths
are nonnegative.  The returned third component is therefore the squared
length of the longest edge (only the index is ever consumed by callers). -/
def vlongestEdge (polygon : Poly) : Option (ℕ × V2 × ℚ) :=
  if polygon.length < 2 then none
  else
    let n := polygon.length
    let best := (List.range n).foldl (fun (acc : ℚ × ℕ) i =>
      let next := (i + 1) % n
      let len2 := V2.dist2 (polygon.getD i 0) (polygon.getD next 0)
      if acc.1 < len2 then (len2, i) else acc) (0, 0)
    some (best.2, polygon.getD best.2 0, best.1)

/-- The cut ratio drawn in `subdivide_to_plots`:
`(1 - spread)/2 + u * spread` with `spread = 0.8 * grid_chaos` and `u` the
unit-interval random draw. -/
def cutRatio (gridChaos u : ℚ) : ℚ :=
  (1 - 0.8 * gridChaos) / 2 + u * (0.8 * gridChaos)

/-- The angular spread of the cut rotation, measured as a coefficient of π:
the source computes `if area < min_sq * 4.0 { 0.0 } else { PI/6.0 * grid_chaos }`,
which is `π` times this value. -/
def angleSpreadPi (area minSq gridChaos : ℚ) : ℚ :=
  if area < minSq * 4 then 0 else gridChaos / 6

/-- The angular offset of the cut (as a coefficient of π):
`(u - 0.5) * angle_spread`. -/
def angleOffsetPi (area minSq gridChaos u : ℚ) : ℚ :=
  (u - 0.5) * angleSpreadPi area minSq gridChaos

/-- The depth-decayed alley probability computed in `subdivide_to_plots`:
`alley_chance * (1.0 - depth / max_recursion_depth)`.  Note that the
source rebinds `alley_chance` to this value and passes the rebound value
into both recursive calls. -/
def alleyDecayed (alleyChance : ℚ) (depth maxDepth : ℕ) : ℚ :=
  alleyChance * (1 - (depth : ℚ) / (maxDepth : ℚ))

/-- The lateral separation carried by a cut: `alley_width` when the
Bernoulli draw `u < alley_chance` succeeds, otherwise `0`. -/
def alleySep (u chance alleyWidth : ℚ) : ℚ := if u < chance then alleyWidth else 0

/-- `Vec2::normalize`, with the machine square root abstracted. -/
def vnormalize (ops : FloatOps) (v : V2) : V2 :=
  ⟨v.x / ops.sqrt (v.x ^ 2 + v.y ^ 2), v.y / ops.sqrt (v.x ^ 2 + v.y ^ 2)⟩

/-- Rotation of `v` by the angle `a·π` (the source rotates by the raw
`angle_offset` radians; we carry the π-coefficient). -/
def rotateByPi (ops : FloatOps) (v : V2) (a : ℚ) : V2 :=
  ⟨v.x * ops.cosPi a - v.y * ops.sinPi a, v.x * ops.sinPi a + v.y * ops.cosPi a⟩

/-- Minimum x coordinate of a polygon (the source folds `min` starting
from `+∞`; for the nonempty polygons reaching this code the head-seeded
fold is identical). -/
def polyMinX (p : Poly) : ℚ := (p.map V2.x).foldl min (p.headD 0).x

/-- Maximum x coordinate of a polygon. -/
def polyMaxX (p : Poly) : ℚ := (p.map V2.x).foldl max (p.headD 0).x

/-- Minimum y coordinate of a polygon. -/
def polyMinY (p : Poly) : ℚ := (p.map V2.y).foldl min (p.headD 0).y

/-- Maximum y coordinate of a polygon. -/
def polyMaxY (p : Poly) : ℚ := (p.map V2.y).foldl max (p.headD 0).y

/-- The cut-line half-extent `line_extent` of `bisect_poly`: the length of
the bounding-box diagonal (machine square root abstracted). -/
def lineExtent (ops : FloatOps) (p : Poly) : ℚ :=
  ops.sqrt ((polyMaxX p - polyMinX p) ^ 2 + (polyMaxY p - polyMinY p) ^ 2)

/-- The extended cutting line of `bisect_poly` (start point, end point). -/
def cutLine (ops : FloatOps) (polygon : Poly) (startIdx : ℕ) (ratio anglePi : ℚ) :
    V2 × V2 :=
  let nextIdx := (startIdx + 1) % polygon.length
  let startV := polygon.getD startIdx 0
  let nextV := polygon.getD nextIdx 0
  let edgeDir := nextV - startV
  let cutPoint := startV + ratio • edgeDir
  let rotated := rotateByPi ops (vnormalize ops ⟨-edgeDir.y, edgeDir.x⟩) anglePi
  (cutPoint - lineExtent ops polygon • rotated,
   cutPoint + lineExtent ops polygon • rotated)

/-- All `(edge index, point)` intersections of the cutting line with the
polygon's edges, in edge order — the `intersections` vector of
`bisect_poly`. -/
def cutIntersections (polygon : Poly) (lineStart lineEnd : V2) : List (ℕ × V2) :=
  (List.range polygon.length).filterMap (fun i =>
    let j := (i + 1) % polygon.length
    (lineSegmentIntersection lineStart lineEnd (polygon.getD i 0) (polygon.getD j 0)).map
      (fun q => (i, q)))

/-- Rust's stable `sort_by_key` on the edge index, as an insertion sort. -/
def sortByEdgeIdx (l : List (ℕ × V2)) : List (ℕ × V2) :=
  List.insertionSort (fun a b => a.1 ≤ b.1) l

/-- The vertex-ring split of `bisect_poly`: given the two (sorted)
edge-intersections, build the two candidate sub-polygons. -/
def splitHalves (polygon : Poly) (idx1 : ℕ) (int1 : V2) (idx2 : ℕ) (int2 : V2) :
    Poly × Poly :=
  let poly1 : Poly :=
    int1 :: ((List.range' (idx1 + 1) (idx2 - idx1)).map (fun i => polygon.getD i 0)) ++ [int2]
  let poly2 : Poly :=
    int2 :: ((List.range' (idx2 + 1) (polygon.length - (idx2 + 1))).map (fun i => polygon.getD i 0))
      ++ (List.range (idx1 + 1)).map (fun i => polygon.getD i 0) ++ [int1]
  (poly1, poly2)

/-- The two candidate halves produced by `bisect_poly` from its
intersection list (after the stable sort by edge index). -/
def bisectHalves (polygon : Poly) (ints : List (ℕ × V2)) : Poly × Poly :=
  let sorted := sortByEdgeIdx ints
  splitHalves polygon (sorted.getD 0 (0, 0)).1 (sorted.getD 0 (0, 0)).2
    (sorted.getD 1 (0, 0)).1 (sorted.getD 1 (0, 0)).2

/-- The retention test of `bisect_poly` for a candidate half:
`poly.len() >= 3 && polygon_area(&poly) > 0.1`. -/
def keepHalf (p : Poly) : Bool := decide (3 ≤ p.length) && decide ((1 : ℚ)/10 < polygonArea p)

/-- Squared distance from a point to a line segment (`point_to_line_distance`
squared; only ever compared against nonnegative bounds, so the squared
form is exact).  `f32::EPSILON = 2⁻²³` appears squared for the same
reason. -/
def pointToLineDist2 (point lineStart lineEnd : V2) : ℚ :=
  let lineVec := lineEnd - lineStart
  let pointVec := point - lineStart
  if V2.dot lineVec lineVec < (1 / 2 ^ 23) ^ 2 then V2.dot pointVec pointVec
  else
    let t := ratClamp (V2.dot pointVec lineVec / V2.dot lineVec lineVec) 0 1
    V2.dist2 point (lineStart + t • lineVec)

/-- `push_polygon_from_line` from `subdivision.rs`: move vertices close to
the line away from it, falling back to the original polygon if the area
collapses below 20%. -/
def pushPolygonFromLine (ops : FloatOps) (polygon : Poly) (lineStart lineEnd : V2)
    (distance : ℚ) : Poly :=
  if polygon.length < 3 then polygon
  else
    let lineDir := vnormalize ops (lineEnd - lineStart)
    let lineNormal : V2 := ⟨-lineDir.y, lineDir.x⟩
    let centroid := polygonCentroid polygon (polygonArea polygon)
    let sepDir := if 0 < V2.dot (centroid - lineStart) lineNormal then lineNormal else -lineNormal
    let shrunk : Poly := polygon.map (fun vertex =>
      if 0 < distance * 2 ∧ pointToLineDist2 vertex lineStart lineEnd < (distance * 2) ^ 2 then
        let lineVec := lineEnd - lineStart
        let t := V2.dot (vertex - lineStart) lineVec / V2.dot lineVec lineVec
        if -(1/10) ≤ t ∧ t ≤ 11/10 then vertex + distance • sepDir else vertex
      else vertex)
    if polygonArea shrunk < polygonArea polygon * (2/10) then polygon else shrunk

/-- `bisect_poly` from `subdivision.rs`. -/
def bisectPoly (ops : FloatOps) (polygon : Poly) (startIdx : ℕ)
    (ratio anglePi separation : ℚ) : List Poly :=
  if polygon.length < 3 ∨ polygon.length ≤ startIdx then [polygon]
  else
    let line := cutLine ops polygon startIdx ratio anglePi
    let ints := cutIntersections polygon line.1 line.2
    if ints.length ≠ 2 then [polygon]
    else
      let halves := bisectHalves polygon ints
      let keep1 : List Poly :=
        if keepHalf halves.1 then
          [if 0 < separation then
              pushPolygonFromLine ops halves.1 line.1 line.2 (separation * 0.5)
            else halves.1]
        else []
      let keep2 : List Poly :=
        if keepHalf halves.2 then
          [if 0 < separation then
              pushPolygonFromLine ops halves.2 line.1 line.2 (separation * 0.5)
            else halves.2]
        else []
      if keep1 ++ keep2 = [] then [polygon] else keep1 ++ keep2

/-- The cut performed by one non-terminal `subdivide_to_plots` invocation:
draws the ratio, the angular offset and the alley separation from the
stream (draws `k`, `k+1`, `k+2`) and bisects along the longest edge
starting at vertex `longestIdx`. -/
def subdivideCut (ops : FloatOps) (rng : ℕ → ℚ) (polygon : Poly)
    (minSq gridChaos : ℚ) (depth k maxDepth : ℕ) (alleyChance alleyWidth : ℚ)
    (longestIdx : ℕ) : List Poly :=
  bisectPoly ops polygon longestIdx (cutRatio gridChaos (rng k))
    (angleOffsetPi (polygonArea polygon) minSq gridChaos (rng (k + 1)))
    (alleySep (rng (k + 2)) (alleyDecayed alleyChance depth maxDepth) alleyWidth)

mutual

/-- `subdivide_to_plots` from `subdivision.rs`.  The `StdRng` stream is
modelled by `rng : ℕ → ℚ` (successive unit-interval draws) together with
a cursor `k`; the returned cursor is the next unconsumed draw, so draws
are consumed in exactly the source's order.  Returns the (plots, cursor)
pair.  Note that the recursive calls receive the depth-decayed
`alley_chance` and the drawn `alley_width` (`0` when the alley draw
failed), exactly as the source's shadowed rebindings do. -/
def subdivideToPlots (ops : FloatOps) (rng : ℕ → ℚ) (polygon : Poly)
    (minSq gridChaos sizeChaos emptyProb : ℚ) (depth k maxDepth : ℕ)
    (alleyChance alleyWidth : ℚ) : List Poly × ℕ :=
  if _h : maxDepth < depth then ([polygon], k)
  else if polygonArea polygon < minSq then ([polygon], k)
  else
    match vlongestEdge polygon with
    | none => ([polygon], k)
    | some info =>
      if (subdivideCut ops rng polygon minSq gridChaos depth k maxDepth
            alleyChance alleyWidth info.1).length = 1 ∧
          ((subdivideCut ops rng polygon minSq gridChaos depth k maxDepth
            alleyChance alleyWidth info.1).headD []).length = polygon.length then
        ([polygon], k + 3)
      else
        subdivideHalves ops rng
          (subdivideCut ops rng polygon minSq gridChaos depth k maxDepth
            alleyChance alleyWidth info.1)
          minSq gridChaos sizeChaos emptyProb depth (k + 3) maxDepth
          (alleyDecayed alleyChance depth maxDepth)
          (alleySep (rng (k + 2)) (alleyDecayed alleyChance depth maxDepth) alleyWidth)
termination_by (maxDepth + 1 - depth, 0)
decreasing_by
  apply Prod.Lex.left
  omega

/-- The body of the `for half in halves` loop of `subdivide_to_plots` for
one half: draw the size-variation factor (draw `k`); if the half's area is
below twice the adjusted minimum it is a final plot kept unless the
empty-probability draw (draw `k+1`) discards it, otherwise recurse at
`depth + 1`. -/
def subdivideStep (ops : FloatOps) (rng : ℕ → ℚ) (half : Poly)
    (minSq gridChaos sizeChaos emptyProb : ℚ) (depth k maxDepth : ℕ)
    (alleyChance alleyWidth : ℚ) : List Poly × ℕ :=
  if polygonArea half < minSq * ops.exp2 (4 * sizeChaos * (rng k - 0.5)) * 2 then
    if emptyProb ≤ rng (k + 1) then ([half], k + 2) else ([], k + 2)
  else
    subdivideToPlots ops rng half minSq gridChaos sizeChaos emptyProb
      (depth + 1) (k + 1) maxDepth alleyChance alleyWidth
termination_by (maxDepth - depth, 1)
decreasing_by
  simp_wf
  apply Prod.Lex.right
  omega

/-- The `for half in halves` loop of `subdivide_to_plots`, threading the
random cursor left to right. -/
def subdivideHalves (ops : FloatOps) (rng : ℕ → ℚ) (halves : List Poly)
    (minSq gridChaos sizeChaos emptyProb : ℚ) (depth k maxDepth : ℕ)
    (alleyChance alleyWidth : ℚ) : List Poly × ℕ :=
  match halves with
  | [] => ([], k)
  | half :: rest =>
    ((subdivideStep ops rng half minSq gridChaos sizeChaos emptyProb depth k
        maxDepth alleyChance alleyWidth).1 ++
      (subdivideHalves ops rng rest minSq gridChaos sizeChaos emptyProb depth
        (subdivideStep ops rng half minSq gridChaos sizeChaos emptyProb depth k
          maxDepth alleyChance alleyWidth).2 maxDepth alleyChance alleyWidth).1,
     (subdivideHalves ops rng rest minSq gridChaos sizeChaos emptyProb depth
        (subdivideStep ops rng half minSq gridChaos sizeChaos emptyProb depth k
          maxDepth alleyChance alleyWidth).2 maxDepth alleyChance alleyWidth).2)
termination_by (maxDepth - depth, halves.length + 2)
decreasing_by
  · simp_wf
    apply Prod.Lex.right
    omega
  · simp_wf
    apply Prod.Lex.right
    omega
  · simp_wf
    apply Prod.Lex.right
    omega

end

/-- The alley-chance parameter received by the recursion node at depth `d`
of a top-level `subdivide_to_plots` call made with chance `c0` at depth 0:
the source rebinds `alley_chance` to `alleyDecayed alley_chance depth max`
and passes the rebound value to both recursive calls (see
`subdivideToPlots`, which hands `chance` down to `subdivideHalves`). -/
def alleyChanceParamAt (c0 : ℚ) (maxDepth : ℕ) : ℕ → ℚ
  | 0 => c0
  | d + 1 => alleyDecayed (alleyChanceParamAt c0 maxDepth d) d maxDepth

/-- The Bernoulli threshold compared against the random draw at a depth-`d`
node: the decayed value of the chance parameter that node received. -/
def usedAlleyChance (c0 : ℚ) (maxDepth d : ℕ) : ℚ :=
  alleyDecayed (alleyChanceParamAt c0 maxDepth d) d maxDepth

/-! ## Voronoi builder (`src/systems/mesh/poly/voronoi.rs`) and point
generation / relaxation (`src/systems/mesh/poly/point_gen.rs`).

The `spade` Delaunay triangulation is external to this repository; faces
are modelled as position triples, and `delaunayFaces` reconstructs the
triangulation of a point set in general position by the empty-circumcircle
characterisation (enumerated in lexicographic index order, the
deterministic enumeration the merge pass depends on). -/

/-- `CANVAS_WIDTH` from `config.rs`. -/
def canvasWidth : ℚ := 500

/-- `CANVAS_HEIGHT` from `config.rs`. -/
def canvasHeight : ℚ := 500

/-- A triangulation face, by vertex positions. -/
def Tri := V2 × V2 × V2

instance : DecidableEq Tri := inferInstanceAs (DecidableEq (V2 × V2 × V2))

/-- `calculate_circumcenter` from `utils.rs`: perpendicular-bisector
solution with fallback to the centroid for near-collinear triangles
(`|d| < f64::EPSILON = 2⁻⁵²`) and for circumcenters farther than
`CANVAS_WIDTH · 5` from the centroid or the axes (the distance comparison
is modelled squared, which is exact for nonnegative bounds). -/
def calcCircumcenter (p1 p2 p3 : V2) : V2 :=
  if ratAbs (2 * (p1.x * (p2.y - p3.y) + p2.x * (p3.y - p1.y) + p3.x * (p1.y - p2.y)))
      < 1 / 2 ^ 52 then
    ⟨(p1.x + p2.x + p3.x) / 3, (p1.y + p2.y + p3.y) / 3⟩
  else
    let d := 2 * (p1.x * (p2.y - p3.y) + p2.x * (p3.y - p1.y) + p3.x * (p1.y - p2.y))
    let ux := ((p1.x ^ 2 + p1.y ^ 2) * (p2.y - p3.y) + (p2.x ^ 2 + p2.y ^ 2) * (p3.y - p1.y)
      + (p3.x ^ 2 + p3.y ^ 2) * (p1.y - p2.y)) / d
    let uy := ((p1.x ^ 2 + p1.y ^ 2) * (p3.x - p2.x) + (p2.x ^ 2 + p2.y ^ 2) * (p1.x - p3.x)
      + (p3.x ^ 2 + p3.y ^ 2) * (p2.x - p1.x)) / d
    let cx := (p1.x + p2.x + p3.x) / 3
    let cy := (p1.y + p2.y + p3.y) / 3
    if (ux - cx) ^ 2 + (uy - cy) ^ 2 > (canvasWidth * 5) ^ 2 ∨
        ratAbs ux > canvasWidth * 5 ∨ ratAbs uy > canvasWidth * 5 then ⟨cx, cy⟩
    else ⟨ux, uy⟩

/-- The per-face circumcenters of `vpoly`, with the `bound_margin = 2.0`
canvas check and centroid fallback. -/
def faceCircumcenters (faces : List Tri) : List V2 :=
  faces.map (fun f =>
    if ratAbs (calcCircumcenter f.1 f.2.1 f.2.2).x ≤ canvasWidth * 2 ∧
        ratAbs (calcCircumcenter f.1 f.2.1 f.2.2).y ≤ canvasHeight * 2 then
      calcCircumcenter f.1 f.2.1 f.2.2
    else ⟨(f.1.x + f.2.1.x + f.2.2.x) / 3, (f.1.y + f.2.1.y + f.2.2.y) / 3⟩)

/-- The single-pass greedy merge of `vpoly` on indexed circumcenters: the
first unused point claims every later unused point within the threshold
and the cluster is removed from further consideration.  The fuel argument
(always instantiated with the list length, which the recursion never
exceeds since `filter` shortens the list) makes the recursion structural,
so that concrete merges evaluate inside the kernel; the proven equation
`greedyClusters_cons` below certifies the intended recurrence. -/
def greedyClustersFuel (t : ℚ) : ℕ → List (ℕ × V2) → List (List (ℕ × V2))
  | _, [] => []
  | 0, _ :: _ => []
  | fuel + 1, c :: rest =>
    (c :: rest.filter (fun j => distLt c.2 j.2 t)) ::
      greedyClustersFuel t fuel (rest.filter (fun j => !distLt c.2 j.2 t))

/-- The greedy merge, fuelled by the input length. -/
def greedyClusters (t : ℚ) (l : List (ℕ × V2)) : List (List (ℕ × V2)) :=
  greedyClustersFuel t l.length l

theorem greedyClustersFuel_congr (t : ℚ) :
    ∀ (fuel fuel' : ℕ) (l : List (ℕ × V2)), l.length ≤ fuel → l.length ≤ fuel' →
      greedyClustersFuel t fuel l = greedyClustersFuel t fuel' l := by
  intro fuel
  induction fuel with
  | zero =>
    intro fuel' l h h'
    have : l = [] := List.length_eq_zero.mp (by omega)
    subst this
    cases fuel' <;> rfl
  | succ n ih =>
    intro fuel' l h h'
    rcases l with _ | ⟨c, rest⟩
    · cases fuel' <;> rfl
    · rcases fuel' with _ | m
      · simp at h'
      · simp only [greedyClustersFuel]
        congr 1
        have hf := List.length_filter_le (fun j => !distLt c.2 j.2 t) rest
        simp only [List.length_cons] at h h'
        exact ih m (rest.filter (fun j => !distLt c.2 j.2 t)) (by omega) (by omega)

/-- The greedy merge satisfies the intended recurrence: the head claims
every later point within the threshold, and the merge continues on the
unclaimed remainder. -/
theorem greedyClusters_cons (t : ℚ) (c : ℕ × V2) (rest : List (ℕ × V2)) :
    greedyClusters t (c :: rest) =
      (c :: rest.filter (fun j => distLt c.2 j.2 t)) ::
        greedyClusters t (rest.filter (fun j => !distLt c.2 j.2 t)) := by
  have hle := List.length_filter_le (fun j => !distLt c.2 j.2 t) rest
  show (c :: rest.filter (fun j => distLt c.2 j.2 t)) ::
      greedyClustersFuel t rest.length (rest.filter (fun j => !distLt c.2 j.2 t)) =
    (c :: rest.filter (fun j => distLt c.2 j.2 t)) ::
      greedyClusters t (rest.filter (fun j => !distLt c.2 j.2 t))
  revert hle
  generalize rest.filter (fun j => !distLt c.2 j.2 t) = X
  intro hle
  unfold greedyClusters
  exact congrArg (fun z => (c :: rest.filter (fun j => distLt c.2 j.2 t)) :: z)
    (greedyClustersFuel_congr t rest.length X.length X hle le_rfl)

/-- The clusters of the merge pass over a circumcenter list. -/
def mergeClusters (t : ℚ) (ccs : List V2) : List (List (ℕ × V2)) :=
  greedyClusters t ccs.enum

/-- Average of a list of points (`fold add ZERO / len`). -/
def avgV2 (l : List V2) : V2 :=
  ⟨(l.foldl (· + ·) 0).x / l.length, (l.foldl (· + ·) 0).y / l.length⟩

/-- The merged circumcenters: each cluster collapses to the average of its
members, in cluster-creation order — the `points` of the diagram. -/
def mergedPoints (t : ℚ) (ccs : List V2) : List V2 :=
  (mergeClusters t ccs).map (fun cl => avgV2 (cl.map (·.2)))

/-- The first member (representative) of each cluster, in cluster order. -/
def clusterReps (t : ℚ) (ccs : List V2) : List V2 :=
  (mergeClusters t ccs).map (fun cl => (cl.headD (0, 0)).2)

/-- `index_mapping`: the merged index an old circumcenter index maps to
(the position of the cluster containing it). -/
def firstClusterIdx (cls : List (List (ℕ × V2))) (i : ℕ) : Option ℕ :=
  match cls with
  | [] => none
  | cl :: rest =>
    if cl.any (fun c => c.1 = i) then some 0
    else (firstClusterIdx rest i).map (· + 1)

/-- Push with the `contains` duplicate check of the cell assembly. -/
def dedupPush (l : List ℕ) (x : ℕ) : List ℕ := if x ∈ l then l else l ++ [x]

/-- The (remapped, deduplicated) merged-circumcenter indices of every face
incident to a generator position, in face order — `voronoi_circumcenters`
of `vpoly` for one generator. -/
def cellIndicesFor (t : ℚ) (faces : List Tri) (p : V2) : List ℕ :=
  faces.enum.foldl (fun acc fi =>
    if fi.2.1 = p ∨ fi.2.2.1 = p ∨ fi.2.2.2 = p then
      match firstClusterIdx (mergeClusters t (faceCircumcenters faces)) fi.1 with
      | some newIdx => dedupPush acc newIdx
      | none => acc
    else acc) []

/-- Whether a face holds the (unordered) edge `a b`. -/
def faceHasEdge (f : Tri) (a b : V2) : Bool :=
  decide ((f.1 = a ∧ f.2.1 = b) ∨ (f.2.1 = a ∧ f.1 = b) ∨
    (f.2.1 = a ∧ f.2.2 = b) ∨ (f.2.2 = a ∧ f.2.1 = b) ∨
    (f.2.2 = a ∧ f.1 = b) ∨ (f.1 = a ∧ f.2.2 = b))

/-- A face is adjacent to the triangulation's outer face exactly when one
of its edges belongs to no other face. -/
def faceOnHull (faces : List Tri) (f : Tri) : Bool :=
  decide ((faces.filter (fun g => faceHasEdge g f.1 f.2.1)).length = 1) ||
  decide ((faces.filter (fun g => faceHasEdge g f.2.1 f.2.2)).length = 1) ||
  decide ((faces.filter (fun g => faceHasEdge g f.2.2 f.1)).length = 1)

/-- The boundary test of `vpoly`: some face incident to the generator is
adjacent to the outer face. -/
def isBoundaryGenerator (faces : List Tri) (p : V2) : Bool :=
  faces.any (fun f =>
    (decide (f.1 = p) || decide (f.2.1 = p) || decide (f.2.2 = p)) && faceOnHull faces f)

/-- Quadrant class of the exact `atan2` order: `atan2 y x` is negative for
`y < 0`, zero for `y = 0 ∧ x ≥ 0` (including the origin), positive below
π for `y > 0`, and π for `y = 0 ∧ x < 0`. -/
def angleClass (v : V2) : ℕ :=
  if v.y < 0 then 0
  else if v.y = 0 ∧ 0 ≤ v.x then 1
  else if 0 < v.y then 2
  else 3

/-- Exact comparison `atan2 a.y a.x < atan2 b.y b.x` on rational vectors:
compare quadrant classes, and inside an open half-plane compare by the
cross product. -/
def atan2Lt (a b : V2) : Bool :=
  decide (angleClass a < angleClass b) ||
    (decide (angleClass a = angleClass b) &&
      (decide (angleClass a = 0) || decide (angleClass a = 2)) &&
      decide (0 < V2.cross a b))

/-- The stable `sort_by` on the exact angle around `center`, applied to
indices into `points`. -/
def sortByAngle (center : V2) (points : List V2) (idxs : List ℕ) : List ℕ :=
  List.insertionSort
    (fun i j => atan2Lt (points.getD i 0 - center) (points.getD j 0 - center) = true) idxs

/-- The per-generator cell assembly and filtering of `vpoly`: cells are
emitted in generator order; a generator is dropped when fewer than 3
circumcenter indices remain, when it lies outside the boundary polygon,
when one of its faces touches the outer face, or when an associated merged
circumcenter lies farther than `CANVAS_WIDTH · 3` from the origin;
surviving index lists are sorted by angle around the generator. -/
def vpolyCells (faces : List Tri) (generators boundary : List V2) (t : ℚ) : List (List ℕ) :=
  generators.filterMap (fun p =>
    if (cellIndicesFor t faces p).length < 3 then none
    else if !pointInPolygon p boundary then none
    else if isBoundaryGenerator faces p then none
    else if (cellIndicesFor t faces p).any (fun ci =>
        ((mergedPoints t (faceCircumcenters faces)).getD ci 0).x ^ 2 +
          ((mergedPoints t (faceCircumcenters faces)).getD ci 0).y ^ 2 >
          (canvasWidth * 3) ^ 2) then none
    else some (sortByAngle p (mergedPoints t (faceCircumcenters faces)) (cellIndicesFor t faces p)))

/-- `SkeletonData` from `mesh/mod.rs` (2D, since every `Vec3` the core
produces has `y = 0`). -/
structure SkeletonData where
  generator_points : List V2
  points : List V2
  cells : List (List ℕ)
  road_path : List V2
  boundary_polygon : List V2
  boundary_vertex_offsets : List V2

/-- `vpoly` from `voronoi.rs`, over an explicit face list. -/
def vpolyWith (faces : List Tri) (generators boundary : List V2) (t : ℚ) : SkeletonData :=
  { generator_points := generators
    points := mergedPoints t (faceCircumcenters faces)
    cells := vpolyCells faces generators boundary t
    road_path := []
    boundary_polygon := boundary
    boundary_vertex_offsets := boundary.map (fun _ => 0) }

/-- Triple orientation (positive iff `a b c` is counterclockwise). -/
def orient (a b c : V2) : ℚ :=
  (b.x - a.x) * (c.y - a.y) - (b.y - a.y) * (c.x - a.x)

/-- Whether `p` lies strictly inside the circumcircle of the
non-degenerate triangle `a b c` (orientation-corrected in-circle
determinant). -/
def inCircleStrict (a b c p : V2) : Bool :=
  let m11 := a.x - p.x
  let m12 := a.y - p.y
  let m13 := m11 ^ 2 + m12 ^ 2
  let m21 := b.x - p.x
  let m22 := b.y - p.y
  let m23 := m21 ^ 2 + m22 ^ 2
  let m31 := c.x - p.x
  let m32 := c.y - p.y
  let m33 := m31 ^ 2 + m32 ^ 2
  let det := m11 * (m22 * m33 - m23 * m32) - m12 * (m21 * m33 - m23 * m31)
    + m13 * (m21 * m32 - m22 * m31)
  if 0 < orient a b c then decide (0 < det) else decide (det < 0)

/-- Deduplication keeping first occurrences, by accumulated seen-set (the
`spade` triangulation silently skips re-insertions of an existing
vertex). -/
def dedupFirstAux : List V2 → List V2 → List V2
  | _, [] => []
  | seen, x :: rest =>
    if x ∈ seen then dedupFirstAux seen rest
    else x :: dedupFirstAux (x :: seen) rest

/-- Deduplication keeping first occurrences. -/
def dedupFirst (l : List V2) : List V2 := dedupFirstAux [] l

/-- Model of the external `spade` Delaunay triangulation: for points in
general position the Delaunay faces are exactly the non-collinear triples
whose circumcircle strictly contains no other point; they are enumerated
in lexicographic order of their (deduplicated) vertex indices, giving a
deterministic, reproducible face order. -/
def delaunayFaces (pts : List V2) : List Tri :=
  (List.range (dedupFirst pts).length).flatMap (fun i =>
    (List.range (dedupFirst pts).length).flatMap (fun j =>
      (List.range (dedupFirst pts).length).filterMap (fun k =>
        if i < j ∧ j < k then
          if orient ((dedupFirst pts).getD i 0) ((dedupFirst pts).getD j 0)
                ((dedupFirst pts).getD k 0) ≠ 0 ∧
              (dedupFirst pts).all (fun p =>
                !inCircleStrict ((dedupFirst pts).getD i 0) ((dedupFirst pts).getD j 0)
                  ((dedupFirst pts).getD k 0) p) then
            some (((dedupFirst pts).getD i 0), ((dedupFirst pts).getD j 0),
              ((dedupFirst pts).getD k 0))
          else none
        else none)))

/-- `vpoly` from `voronoi.rs` over generator points, using the modelled
Delaunay triangulation. -/
def vpoly (generators boundary : List V2) (t : ℚ) : SkeletonData :=
  vpolyWith (delaunayFaces generators) generators boundary t

/-- Pairwise separation check: no two (ordered) entries of the list are
within distance `t` of each other. -/
def pairwiseFar (t : ℚ) : List V2 → Bool
  | [] => true
  | p :: rest => rest.all (fun q => !distLt p q t) && pairwiseFar t rest

/-- `pgen` from `point_gen.rs`: spiral point generation.  A
`random_range (a..b)` draw is modelled as `a + u * (b - a)` for the next
unit-interval stream sample `u`; iteration `i` consumes draws `2i` and
`2i + 1`, matching the source's draw order. -/
def pgenPoint (ops : FloatOps) (rng : ℕ → ℚ) (spread width height : ℚ) (i : ℕ) : V2 :=
  ⟨ratClamp (ops.cos ((i : ℚ) * 0.5 + (-0.3 + rng (2 * i) * 0.6)) *
      ((i : ℚ) * spread + (-(spread * 0.2) + rng (2 * i + 1) * (spread * 0.4))))
    (-width) width,
   ratClamp (ops.sin ((i : ℚ) * 0.5 + (-0.3 + rng (2 * i) * 0.6)) *
      ((i : ℚ) * spread + (-(spread * 0.2) + rng (2 * i + 1) * (spread * 0.4))))
    (-height) height⟩

/-- The spiral point list of `pgen`. -/
def pgen (ops : FloatOps) (rng : ℕ → ℚ) (numPoints : ℕ)
    (width height spread : ℚ) : List V2 :=
  (List.range numPoints).map (pgenPoint ops rng spread width height)

/-- The centroid move of one regular point given its collected incident
circumcenters (`cell_points`): sort by angle around their average, keep
the point if the polygon area is negligible, else move to the clamped
centroid. -/
def cellCentroidMove (p : V2) (cellPoints : List V2) (width height : ℚ) : V2 :=
  if ratAbs (polygonArea (List.insertionSort
      (fun a b => atan2Lt (a - avgV2 cellPoints) (b - avgV2 cellPoints) = true)
      cellPoints)) ≤ 1 / 2 ^ 23 then p
  else
    ⟨ratClamp (polygonCentroid (List.insertionSort
        (fun a b => atan2Lt (a - avgV2 cellPoints) (b - avgV2 cellPoints) = true)
        cellPoints)
        (polygonArea (List.insertionSort
          (fun a b => atan2Lt (a - avgV2 cellPoints) (b - avgV2 cellPoints) = true)
          cellPoints))).x (-width) width,
     ratClamp (polygonCentroid (List.insertionSort
        (fun a b => atan2Lt (a - avgV2 cellPoints) (b - avgV2 cellPoints) = true)
        cellPoints)
        (polygonArea (List.insertionSort
          (fun a b => atan2Lt (a - avgV2 cellPoints) (b - avgV2 cellPoints) = true)
          cellPoints))).y (-height) height⟩

/-- One Lloyd-relaxation iteration of `prelax`: triangulate
`regular ++ fixed`, compute per-face circumcenters, and move every regular
point to the (clamped) centroid of its angularly-sorted incident
circumcenters when at least 3 exist and the polygon has non-negligible
area (`|area| > f32::EPSILON = 2⁻²³`); fixed points are untouched. -/
def prelaxStep (tri : List V2 → List Tri) (regular fixed : List V2)
    (width height : ℚ) : List V2 :=
  regular.map (fun p =>
    if ((tri (regular ++ fixed)).enum.filterMap (fun ff =>
          if ff.2.1 = p ∨ ff.2.2.1 = p ∨ ff.2.2.2 = p then
            some ((((tri (regular ++ fixed)).map
              (fun f => calcCircumcenter f.1 f.2.1 f.2.2)).getD ff.1 0 : V2))
          else none)).length < 3 then p
    else
      cellCentroidMove p
        ((tri (regular ++ fixed)).enum.filterMap (fun ff =>
          if ff.2.1 = p ∨ ff.2.2.1 = p ∨ ff.2.2.2 = p then
            some ((((tri (regular ++ fixed)).map
              (fun f => calcCircumcenter f.1 f.2.1 f.2.2)).getD ff.1 0 : V2))
          else none)) width height)

/-- `prelax` from `point_gen.rs`: iterate the relaxation step `steps`
times, then return relaxed regular points followed by the unmodified
fixed points. -/
def prelaxWith (tri : List V2 → List Tri) (regular fixed : List V2)
    (steps : ℕ) (width height : ℚ) : List V2 :=
  ((fun reg => prelaxStep tri reg fixed width height)^[steps] regular) ++ fixed

/-- `prelax` with the modelled Delaunay triangulation. -/
def prelax (regular fixed : List V2) (steps : ℕ) (width height : ℚ) : List V2 :=
  prelaxWith delaunayFaces regular fixed steps width height

/-- The generation pipeline as composed at plugin startup
(`mesh/mod.rs`): `pgen`, then `prelax` holding the boundary generators
fixed, then `vpoly` on the relaxed generators.  The seed enters through
`seedStream`, the model of `StdRng::seed_from_u64`. -/
def pipeline (ops : FloatOps) (tri : List V2 → List Tri)
    (seedStream : UInt64 → ℕ → ℚ) (seed : UInt64) (count : ℕ)
    (width height spread : ℚ) (fixed : List V2) (steps : ℕ)
    (boundary : List V2) (t : ℚ) : SkeletonData :=
  vpolyWith
    (tri (prelaxWith tri (pgen ops (seedStream seed) count width height spread)
      fixed steps width height))
    (prelaxWith tri (pgen ops (seedStream seed) count width height spread)
      fixed steps width height)
    boundary t

/-- One step of the chance-parameter evolution is exactly the decayed
chance `subdivideToPlots` passes to its recursive calls. -/
theorem alleyChanceParamAt_succ (c0 : ℚ) (maxDepth d : ℕ) :
    alleyChanceParamAt c0 maxDepth (d + 1) =
      alleyDecayed (alleyChanceParamAt c0 maxDepth d) d maxDepth := rfl


/-- `bisect_poly` always returns one or two polygons. -/
theorem bisectPoly_length (ops : FloatOps) (polygon : Poly) (startIdx : ℕ)
    (ratio anglePi separation : ℚ) :
    1 ≤ (bisectPoly ops polygon startIdx ratio anglePi separation).length ∧
    (bisectPoly ops polygon startIdx ratio anglePi separation).length ≤ 2 := by
  simp only [bisectPoly]
  split_ifs <;> simp_all

/-- Unfolding: a call past `max_depth` returns immediately. -/
theorem subdivideToPlots_depth_exit (ops : FloatOps) (rng : ℕ → ℚ) (polygon : Poly)
    (minSq gridChaos sizeChaos emptyProb : ℚ) (depth k maxDepth : ℕ)
    (alleyChance alleyWidth : ℚ) (hd : maxDepth < depth) :
    subdivideToPlots ops rng polygon minSq gridChaos sizeChaos emptyProb depth k
      maxDepth alleyChance alleyWidth = ([polygon], k) := by
  unfold subdivideToPlots
  rw [dif_pos hd]

/-- Unfolding: a polygon below the minimum area is returned unchanged. -/
theorem subdivideToPlots_small_exit (ops : FloatOps) (rng : ℕ → ℚ) (polygon : Poly)
    (minSq gridChaos sizeChaos emptyProb : ℚ) (depth k maxDepth : ℕ)
    (alleyChance alleyWidth : ℚ) (hd : ¬ maxDepth < depth)
    (harea : polygonArea polygon < minSq) :
    subdivideToPlots ops rng polygon minSq gridChaos sizeChaos emptyProb depth k
      maxDepth alleyChance alleyWidth = ([polygon], k) := by
  unfold subdivideToPlots
  rw [dif_neg hd, if_pos harea]

/-- Unfolding: a polygon with no longest edge is returned unchanged. -/
theorem subdivideToPlots_noedge_exit (ops : FloatOps) (rng : ℕ → ℚ) (polygon : Poly)
    (minSq gridChaos sizeChaos emptyProb : ℚ) (depth k maxDepth : ℕ)
    (alleyChance alleyWidth : ℚ) (hd : ¬ maxDepth < depth)
    (harea : ¬ polygonArea polygon < minSq) (hedge : vlongestEdge polygon = none) :
    subdivideToPlots ops rng polygon minSq gridChaos sizeChaos emptyProb depth k
      maxDepth alleyChance alleyWidth = ([polygon], k) := by
  unfold subdivideToPlots
  rw [dif_neg hd, if_neg harea, hedge]

/-- Unfolding: the non-terminal case cuts along the longest edge and
processes the halves (or bails out when the split failed). -/
theorem subdivideToPlots_nonterminal (ops : FloatOps) (rng : ℕ → ℚ) (polygon : Poly)
    (minSq gridChaos sizeChaos emptyProb : ℚ) (depth k maxDepth : ℕ)
    (alleyChance alleyWidth : ℚ) (info : ℕ × V2 × ℚ) (hd : ¬ maxDepth < depth)
    (harea : ¬ polygonArea polygon < minSq)
    (hedge : vlongestEdge polygon = some info) :
    subdivideToPlots ops rng polygon minSq gridChaos sizeChaos emptyProb depth k
      maxDepth alleyChance alleyWidth =
      if (subdivideCut ops rng polygon minSq gridChaos depth k maxDepth
            alleyChance alleyWidth info.1).length = 1 ∧
          ((subdivideCut ops rng polygon minSq gridChaos depth k maxDepth
            alleyChance alleyWidth info.1).headD []).length = polygon.length then
        ([polygon], k + 3)
      else
        subdivideHalves ops rng
          (subdivideCut ops rng polygon minSq gridChaos depth k maxDepth
            alleyChance alleyWidth info.1)
          minSq gridChaos sizeChaos emptyProb depth (k + 3) maxDepth
          (alleyDecayed alleyChance depth maxDepth)
          (alleySep (rng (k + 2)) (alleyDecayed alleyChance depth maxDepth) alleyWidth) := by
  unfold subdivideToPlots
  rw [dif_neg hd, if_neg harea, hedge]

/-- Plot-count bound for one half, assuming the bound for the recursive
calls one level deeper. -/
theorem subdivideStep_len_le (ops : FloatOps) (rng : ℕ → ℚ)
    (minSq gridChaos sizeChaos emptyProb : ℚ) (depth maxDepth : ℕ)
    (alleyChance alleyWidth : ℚ)
    (hrec : ∀ poly k, (subdivideToPlots ops rng poly minSq gridChaos sizeChaos
        emptyProb (depth + 1) k maxDepth alleyChance alleyWidth).1.length ≤
        2 ^ (maxDepth - depth)) (half : Poly) (k : ℕ) :
    (subdivideStep ops rng half minSq gridChaos sizeChaos emptyProb depth k
      maxDepth alleyChance alleyWidth).1.length ≤ 2 ^ (maxDepth - depth) := by
  unfold subdivideStep
  split_ifs
  · simpa using Nat.one_le_two_pow
  · simp
  · exact hrec half (k + 1)

/-- Plot-count bound for the per-half loop, assuming the bound for the
recursive calls one level deeper. -/
theorem subdivideHalves_len_le (ops : FloatOps) (rng : ℕ → ℚ)
    (minSq gridChaos sizeChaos emptyProb : ℚ) (depth maxDepth : ℕ)
    (alleyChance alleyWidth : ℚ)
    (hrec : ∀ poly k, (subdivideToPlots ops rng poly minSq gridChaos sizeChaos
        emptyProb (depth + 1) k maxDepth alleyChance alleyWidth).1.length ≤
        2 ^ (maxDepth - depth)) :
    ∀ (halves : List Poly) (k : ℕ),
      (subdivideHalves ops rng halves minSq gridChaos sizeChaos emptyProb depth k
        maxDepth alleyChance alleyWidth).1.length ≤
        halves.length * 2 ^ (maxDepth - depth) := by
  intro halves
  induction halves with
  | nil =>
    intro k
    unfold subdivideHalves
    simp
  | cons half rest ihh =>
    intro k
    have hs := subdivideStep_len_le ops rng minSq gridChaos sizeChaos emptyProb
      depth maxDepth alleyChance alleyWidth hrec half k
    have hr := ihh ((subdivideStep ops rng half minSq gridChaos sizeChaos
      emptyProb depth k maxDepth alleyChance alleyWidth).2)
    unfold subdivideHalves
    simp only [List.length_append, List.length_cons, Nat.succ_mul]
    set P := 2 ^ (maxDepth - depth) with hP
    set R := rest.length * P with hR
    omega

/-- Plot-count bound for `subdivide_to_plots`: at most `2 ^ (max + 1 - depth)`
plots are ever returned (`N` is an upper bound on the remaining depth
budget, used as the induction fuel). -/
theorem subdivide_len_le (N : ℕ) :
    ∀ (ops : FloatOps) (rng : ℕ → ℚ) (polygon : Poly)
      (minSq gridChaos sizeChaos emptyProb : ℚ) (depth k maxDepth : ℕ)
      (alleyChance alleyWidth : ℚ), maxDepth + 1 - depth ≤ N →
      (subdivideToPlots ops rng polygon minSq gridChaos sizeChaos emptyProb depth k
        maxDepth alleyChance alleyWidth).1.length ≤ 2 ^ (maxDepth + 1 - depth) := by
  induction N with
  | zero =>
    intro ops rng polygon minSq gridChaos sizeChaos emptyProb depth k maxDepth ac aw hN
    have hd : maxDepth < depth := by omega
    rw [subdivideToPlots_depth_exit _ _ _ _ _ _ _ _ _ _ _ _ hd]
    simpa using Nat.one_le_two_pow
  | succ N ih =>
    intro ops rng polygon minSq gridChaos sizeChaos emptyProb depth k maxDepth ac aw hN
    by_cases hd : maxDepth < depth
    · rw [subdivideToPlots_depth_exit _ _ _ _ _ _ _ _ _ _ _ _ hd]
      simpa using Nat.one_le_two_pow
    · by_cases harea : polygonArea polygon < minSq
      · rw [subdivideToPlots_small_exit _ _ _ _ _ _ _ _ _ _ _ _ hd harea]
        simpa using Nat.one_le_two_pow
      · rcases hedge : vlongestEdge polygon with _ | info
        · rw [subdivideToPlots_noedge_exit _ _ _ _ _ _ _ _ _ _ _ _ hd harea hedge]
          simpa using Nat.one_le_two_pow
        · rw [subdivideToPlots_nonterminal _ _ _ _ _ _ _ _ _ _ _ _ info hd harea hedge]
          split
          · simpa using Nat.one_le_two_pow
          · have hmd : maxDepth + 1 - (depth + 1) = maxDepth - depth := by omega
            have hrec : ∀ poly kk, (subdivideToPlots ops rng poly minSq gridChaos
                sizeChaos emptyProb (depth + 1) kk maxDepth
                (alleyDecayed ac depth maxDepth)
                (alleySep (rng (k + 2)) (alleyDecayed ac depth maxDepth) aw)).1.length ≤
                2 ^ (maxDepth - depth) := by
              intro poly kk
              have := ih ops rng poly minSq gridChaos sizeChaos emptyProb (depth + 1) kk
                maxDepth (alleyDecayed ac depth maxDepth)
                (alleySep (rng (k + 2)) (alleyDecayed ac depth maxDepth) aw) (by omega)
              rwa [hmd] at this
            have hb : (subdivideCut ops rng polygon minSq gridChaos depth k maxDepth
                ac aw info.1).length ≤ 2 :=
              (bisectPoly_length ops polygon info.1 (cutRatio gridChaos (rng k))
                (angleOffsetPi (polygonArea polygon) minSq gridChaos (rng (k + 1)))
                (alleySep (rng (k + 2)) (alleyDecayed ac depth maxDepth) aw)).2
            have hh := subdivideHalves_len_le ops rng minSq gridChaos sizeChaos emptyProb
              depth maxDepth (alleyDecayed ac depth maxDepth)
              (alleySep (rng (k + 2)) (alleyDecayed ac depth maxDepth) aw) hrec
              (subdivideCut ops rng polygon minSq gridChaos depth k maxDepth ac aw info.1)
              (k + 3)
            have hpow : 2 ^ (maxDepth + 1 - depth) = 2 * 2 ^ (maxDepth - depth) := by
              have h1 : maxDepth + 1 - depth = (maxDepth - depth) + 1 := by omega
              rw [h1, pow_succ]
              ring
            rw [hpow]
            exact le_trans hh (Nat.mul_le_mul_right _ hb)

/-- With a nonpositive empty-probability, one half always contributes at
least one plot (assuming the same for the recursive calls one level
deeper). -/
theorem subdivideStep_ne_nil (ops : FloatOps) (rng : ℕ → ℚ)
    (minSq gridChaos sizeChaos emptyProb : ℚ) (depth maxDepth : ℕ)
    (alleyChance alleyWidth : ℚ) (hep : emptyProb ≤ 0) (hrng : ∀ n, 0 ≤ rng n)
    (hrec : ∀ poly k, (subdivideToPlots ops rng poly minSq gridChaos sizeChaos
        emptyProb (depth + 1) k maxDepth alleyChance alleyWidth).1 ≠ [])
    (half : Poly) (k : ℕ) :
    (subdivideStep ops rng half minSq gridChaos sizeChaos emptyProb depth k
      maxDepth alleyChance alleyWidth).1 ≠ [] := by
  unfold subdivideStep
  split_ifs with h1 h2
  · simp
  · exact absurd (le_trans hep (hrng (k + 1))) h2
  · exact hrec half (k + 1)

/-- With a nonpositive empty-probability, the loop over a nonempty list of
halves returns at least one plot. -/
theorem subdivideHalves_ne_nil (ops : FloatOps) (rng : ℕ → ℚ)
    (minSq gridChaos sizeChaos emptyProb : ℚ) (depth maxDepth : ℕ)
    (alleyChance alleyWidth : ℚ) (hep : emptyProb ≤ 0) (hrng : ∀ n, 0 ≤ rng n)
    (hrec : ∀ poly k, (subdivideToPlots ops rng poly minSq gridChaos sizeChaos
        emptyProb (depth + 1) k maxDepth alleyChance alleyWidth).1 ≠ [])
    (half : Poly) (rest : List Poly) (k : ℕ) :
    (subdivideHalves ops rng (half :: rest) minSq gridChaos sizeChaos emptyProb
      depth k maxDepth alleyChance alleyWidth).1 ≠ [] := by
  unfold subdivideHalves
  intro hcon
  exact subdivideStep_ne_nil ops rng minSq gridChaos sizeChaos emptyProb depth
    maxDepth alleyChance alleyWidth hep hrng hrec half k
    (List.append_eq_nil.mp hcon).1

/-- With a nonpositive empty-probability, `subdivide_to_plots` always
returns at least one plot (`N` is the induction fuel bounding the depth
budget). -/
theorem subdivide_ne_nil (N : ℕ) :
    ∀ (ops : FloatOps) (rng : ℕ → ℚ) (polygon : Poly)
      (minSq gridChaos sizeChaos emptyProb : ℚ) (depth k maxDepth : ℕ)
      (alleyChance alleyWidth : ℚ), maxDepth + 1 - depth ≤ N →
      emptyProb ≤ 0 → (∀ n, 0 ≤ rng n) →
      (subdivideToPlots ops rng polygon minSq gridChaos sizeChaos emptyProb depth k
        maxDepth alleyChance alleyWidth).1 ≠ [] := by
  induction N with
  | zero =>
    intro ops rng polygon minSq gridChaos sizeChaos emptyProb depth k maxDepth ac aw hN hep hrng
    have hd : maxDepth < depth := by omega
    rw [subdivideToPlots_depth_exit _ _ _ _ _ _ _ _ _ _ _ _ hd]
    simp
  | succ N ih =>
    intro ops rng polygon minSq gridChaos sizeChaos emptyProb depth k maxDepth ac aw hN hep hrng
    by_cases hd : maxDepth < depth
    · rw [subdivideToPlots_depth_exit _ _ _ _ _ _ _ _ _ _ _ _ hd]
      simp
    · by_cases harea : polygonArea polygon < minSq
      · rw [subdivideToPlots_small_exit _ _ _ _ _ _ _ _ _ _ _ _ hd harea]
        simp
      · rcases hedge : vlongestEdge polygon with _ | info
        · rw [subdivideToPlots_noedge_exit _ _ _ _ _ _ _ _ _ _ _ _ hd harea hedge]
          simp
        · rw [subdivideToPlots_nonterminal _ _ _ _ _ _ _ _ _ _ _ _ info hd harea hedge]
          split
          · simp
          · have hrec : ∀ poly kk, (subdivideToPlots ops rng poly minSq gridChaos
                sizeChaos emptyProb (depth + 1) kk maxDepth
                (alleyDecayed ac depth maxDepth)
                (alleySep (rng (k + 2)) (alleyDecayed ac depth maxDepth) aw)).1 ≠ [] := by
              intro poly kk
              exact ih ops rng poly minSq gridChaos sizeChaos emptyProb (depth + 1) kk
                maxDepth (alleyDecayed ac depth maxDepth)
                (alleySep (rng (k + 2)) (alleyDecayed ac depth maxDepth) aw)
                (by omega) hep hrng
            have hb : 1 ≤ (subdivideCut ops rng polygon minSq gridChaos depth k maxDepth
                ac aw info.1).length :=
              (bisectPoly_length ops polygon info.1 (cutRatio gridChaos (rng k))
                (angleOffsetPi (polygonArea polygon) minSq gridChaos (rng (k + 1)))
                (alleySep (rng (k + 2)) (alleyDecayed ac depth maxDepth) aw)).1
            rcases hcc : subdivideCut ops rng polygon minSq gridChaos depth k maxDepth
                ac aw info.1 with _ | ⟨h1, t⟩
            · rw [hcc] at hb
              simp at hb
            · exact subdivideHalves_ne_nil ops rng minSq gridChaos sizeChaos emptyProb
                depth maxDepth (alleyDecayed ac depth maxDepth)
                (alleySep (rng (k + 2)) (alleyDecayed ac depth maxDepth) aw)
                hep hrng hrec h1 t (k + 3)

/-- C10: with `empty_prob ≤ 0` and unit-interval draws, every call of
`subdivide_to_plots` returns a non-empty plot list: every terminal branch
returns the polygon itself, `bisect_poly` returns at least one polygon,
and the empty-plot draw `u ≥ empty_prob` never discards a final plot. -/
theorem C10_subdivide_nonempty (ops : FloatOps) (rng : ℕ → ℚ) (polygon : Poly)
    (minSq gridChaos sizeChaos emptyProb : ℚ) (depth k maxDepth : ℕ)
    (alleyChance alleyWidth : ℚ) (hep : emptyProb ≤ 0) (hrng : ∀ n, 0 ≤ rng n) :
    (subdivideToPlots ops rng polygon minSq gridChaos sizeChaos emptyProb depth k
      maxDepth alleyChance alleyWidth).1 ≠ [] :=
  subdivide_ne_nil (maxDepth + 1 - depth) ops rng polygon minSq gridChaos sizeChaos
    emptyProb depth k maxDepth alleyChance alleyWidth le_rfl hep hrng

/-- Witness for C10 on a concrete triangle with `empty_prob = 0` and the
constant draw `1/2`. -/
theorem C10_subdivide_nonempty_witness :
    (subdivideToPlots trivOps (fun _ => 1/2) [⟨0, 0⟩, ⟨4, 0⟩, ⟨0, 4⟩] 1 0 0 0 0 0 3 0 0).1 ≠ [] :=
  C10_subdivide_nonempty trivOps (fun _ => 1/2) [⟨0, 0⟩, ⟨4, 0⟩, ⟨0, 4⟩] 1 0 0 0 0 0 3 0 0
    le_rfl (fun _ => by norm_num)

/-- C7: `subdivide_to_plots` never recurses past `max_depth` — a call with
`depth > max_depth` returns immediately with the input polygon and an
untouched random cursor — and the total number of returned plots is
finite, bounded by `2 ^ (max_depth + 1 - depth)` (each level splits into
at most two halves and each recursive call increases the depth by one,
which is what makes this measure well-founded: the definition of
`subdivideToPlots` itself is accepted by well-founded recursion on it). -/
theorem C7_subdivide_terminates (ops : FloatOps) (rng : ℕ → ℚ) (polygon : Poly)
    (minSq gridChaos sizeChaos emptyProb : ℚ) (depth k maxDepth : ℕ)
    (alleyChance alleyWidth : ℚ) :
    (maxDepth < depth →
      subdivideToPlots ops rng polygon minSq gridChaos sizeChaos emptyProb depth k
        maxDepth alleyChance alleyWidth = ([polygon], k)) ∧
    (subdivideToPlots ops rng polygon minSq gridChaos sizeChaos emptyProb depth k
        maxDepth alleyChance alleyWidth).1.length ≤ 2 ^ (maxDepth + 1 - depth) := by
  constructor
  · intro hd
    unfold subdivideToPlots
    rw [dif_pos hd]
  · exact subdivide_len_le (maxDepth + 1 - depth) ops rng polygon minSq gridChaos
      sizeChaos emptyProb depth k maxDepth alleyChance alleyWidth le_rfl

/-- Witness for C7: a call at depth 5 past `max_depth = 2` returns the
input triangle unchanged with the cursor untouched. -/
theorem C7_subdivide_terminates_witness :
    subdivideToPlots trivOps (fun _ => 0) [⟨0, 0⟩, ⟨1, 0⟩, ⟨0, 1⟩] 0 0 0 0 5 7 2 0 0 =
      ([[⟨0, 0⟩, ⟨1, 0⟩, ⟨0, 1⟩]], 7) :=
  (C7_subdivide_terminates trivOps (fun _ => 0) [⟨0, 0⟩, ⟨1, 0⟩, ⟨0, 1⟩]
    0 0 0 0 5 7 2 0 0).1 (by norm_num)

end WeaverGen

namespace WeaverGen

/-- C9: `line_segment_intersection` returns `none` exactly when the 2×2
determinant is below `1e-6` in absolute value or an intersection parameter
leaves `[0,1]`; otherwise it returns the genuine intersection point of the
two segments (it satisfies both parametric equations). -/
theorem C9_line_segment_intersection (p1 p2 p3 p4 : V2) :
    (lineSegmentIntersection p1 p2 p3 p4 = none ↔
      |segDenom p1 p2 p3 p4| < 1 / 1000000 ∨
        segS p1 p2 p3 p4 < 0 ∨ 1 < segS p1 p2 p3 p4 ∨
        segT p1 p2 p3 p4 < 0 ∨ 1 < segT p1 p2 p3 p4) ∧
    ∀ q, lineSegmentIntersection p1 p2 p3 p4 = some q →
      q = p1 + segT p1 p2 p3 p4 • (p2 - p1) ∧
      q = p3 + segS p1 p2 p3 p4 • (p4 - p3) := by
  have habs : ratAbs (segDenom p1 p2 p3 p4) = |segDenom p1 p2 p3 p4| :=
    ratAbs_eq_abs _
  unfold lineSegmentIntersection
  rw [habs]
  by_cases hpar : |segDenom p1 p2 p3 p4| < 1 / 1000000
  · rw [if_pos hpar]
    refine ⟨⟨fun _ => Or.inl hpar, fun _ => rfl⟩, fun q hq => Option.noConfusion hq⟩
  · rw [if_neg hpar]
    by_cases hin : 0 ≤ segS p1 p2 p3 p4 ∧ segS p1 p2 p3 p4 ≤ 1 ∧
        0 ≤ segT p1 p2 p3 p4 ∧ segT p1 p2 p3 p4 ≤ 1
    · rw [if_pos hin]
      constructor
      · constructor
        · intro h; exact Option.noConfusion h
        · intro h
          exfalso
          rcases h with h | h | h | h | h
          · exact hpar h
          · exact absurd hin.1 (not_le.mpr h)
          · exact absurd hin.2.1 (not_le.mpr h)
          · exact absurd hin.2.2.1 (not_le.mpr h)
          · exact absurd hin.2.2.2 (not_le.mpr h)
      · intro q hq
        have hq' : q = p1 + segT p1 p2 p3 p4 • (p2 - p1) := (Option.some.inj hq).symm
        have hd : segDenom p1 p2 p3 p4 ≠ 0 := by
          intro h
          rw [h] at hpar
          exact hpar (by norm_num)
        refine ⟨hq', ?_⟩
        rw [hq']
        refine V2.ext' _ _ ?_ ?_
        · simp only [V2.add_x, V2.smul_x, V2.sub_x, V2.sub_y, segS, segT]
          field_simp
          simp only [segDenom, V2.sub_x, V2.sub_y]
          ring
        · simp only [V2.add_y, V2.smul_y, V2.sub_x, V2.sub_y, segS, segT]
          field_simp
          simp only [segDenom, V2.sub_x, V2.sub_y]
          ring
    · rw [if_neg hin]
      constructor
      · constructor
        · intro _
          push_neg at hin
          rcases lt_or_le (segS p1 p2 p3 p4) 0 with hs | hs
          · exact Or.inr (Or.inl hs)
          rcases lt_or_le 1 (segS p1 p2 p3 p4) with hs' | hs'
          · exact Or.inr (Or.inr (Or.inl hs'))
          rcases lt_or_le (segT p1 p2 p3 p4) 0 with ht | ht
          · exact Or.inr (Or.inr (Or.inr (Or.inl ht)))
          exact Or.inr (Or.inr (Or.inr (Or.inr (hin hs hs' ht))))
        · intro _; rfl
      · intro q hq; exact Option.noConfusion hq

/-- Witness for C9: two crossing diagonals of the unit square of side 2
meet at `(1,1)`, which satisfies both parametric equations. -/
theorem C9_line_segment_intersection_witness :
    (⟨1, 1⟩ : V2) = (⟨0, 0⟩ : V2) + segT ⟨0, 0⟩ ⟨2, 2⟩ ⟨0, 2⟩ ⟨2, 0⟩ • ((⟨2, 2⟩ : V2) - ⟨0, 0⟩) ∧
    (⟨1, 1⟩ : V2) = (⟨0, 2⟩ : V2) + segS ⟨0, 0⟩ ⟨2, 2⟩ ⟨0, 2⟩ ⟨2, 0⟩ • ((⟨2, 0⟩ : V2) - ⟨0, 2⟩) :=
  (C9_line_segment_intersection ⟨0, 0⟩ ⟨2, 2⟩ ⟨0, 2⟩ ⟨2, 0⟩).2 ⟨1, 1⟩ (by decide)

/-- C4: for unit-interval draws and nonnegative `grid_chaos`, the cut
ratio lies in `[0.5 - 0.4·gc, 0.5 + 0.4·gc]`, the angular offset of the
cut (as a coefficient of π) lies in `[-gc/12, gc/12]` — i.e. the angle
itself lies in `[-π/12·gc, π/12·gc]` — and the offset is exactly `0`
whenever the polygon's area is below `4·min_area`. -/
theorem C4_cut_selection_bounds (gridChaos u v area minSq : ℚ)
    (hgc : 0 ≤ gridChaos) (hu0 : 0 ≤ u) (hu1 : u < 1) (hv0 : 0 ≤ v) (hv1 : v < 1) :
    (1/2 - 2/5 * gridChaos ≤ cutRatio gridChaos u ∧
      cutRatio gridChaos u ≤ 1/2 + 2/5 * gridChaos) ∧
    (-(gridChaos / 12) ≤ angleOffsetPi area minSq gridChaos v ∧
      angleOffsetPi area minSq gridChaos v ≤ gridChaos / 12) ∧
    (area < minSq * 4 → angleOffsetPi area minSq gridChaos v = 0) := by
  have h8 : (0.8 : ℚ) = 4/5 := by norm_num
  have h5 : (0.5 : ℚ) = 1/2 := by norm_num
  refine ⟨⟨?_, ?_⟩, ⟨?_, ?_⟩, ?_⟩
  · unfold cutRatio
    rw [h8]
    nlinarith
  · unfold cutRatio
    rw [h8]
    nlinarith
  · unfold angleOffsetPi angleSpreadPi
    rw [h5]
    by_cases h : area < minSq * 4
    · rw [if_pos h]
      nlinarith
    · rw [if_neg h]
      nlinarith
  · unfold angleOffsetPi angleSpreadPi
    rw [h5]
    by_cases h : area < minSq * 4
    · rw [if_pos h]
      nlinarith
    · rw [if_neg h]
      nlinarith
  · intro h
    unfold angleOffsetPi angleSpreadPi
    rw [if_pos h, mul_zero]

/-- Witness for C4 at `grid_chaos = 1/2`, draws `1/4` and `3/4`, area `1`,
`min_area = 1`. -/
theorem C4_cut_selection_bounds_witness :
    (1/2 - 2/5 * (1/2 : ℚ) ≤ cutRatio (1/2) (1/4) ∧
      cutRatio (1/2) (1/4) ≤ 1/2 + 2/5 * (1/2 : ℚ)) ∧
    (-((1/2 : ℚ) / 12) ≤ angleOffsetPi 1 1 (1/2) (3/4) ∧
      angleOffsetPi 1 1 (1/2) (3/4) ≤ (1/2 : ℚ) / 12) ∧
    ((1 : ℚ) < 1 * 4 → angleOffsetPi 1 1 (1/2) (3/4) = 0) :=
  C4_cut_selection_bounds (1/2) (1/4) (3/4) 1 1 (by norm_num) (by norm_num)
    (by norm_num) (by norm_num) (by norm_num)

/-- C5: whenever the extended cut line meets the polygon's edges in a
number of points other than 2, or both candidate halves fail the
retention test (`≥ 3` vertices and area `> 0.1`), `bisect_poly` returns
the single-element list holding the input polygon unchanged. -/
theorem C5_bisect_degenerate_returns_input (ops : FloatOps) (polygon : Poly)
    (startIdx : ℕ) (ratio anglePi separation : ℚ)
    (h : (cutIntersections polygon (cutLine ops polygon startIdx ratio anglePi).1
            (cutLine ops polygon startIdx ratio anglePi).2).length ≠ 2 ∨
        (keepHalf (bisectHalves polygon
            (cutIntersections polygon (cutLine ops polygon startIdx ratio anglePi).1
              (cutLine ops polygon startIdx ratio anglePi).2)).1 = false ∧
         keepHalf (bisectHalves polygon
            (cutIntersections polygon (cutLine ops polygon startIdx ratio anglePi).1
              (cutLine ops polygon startIdx ratio anglePi).2)).2 = false)) :
    bisectPoly ops polygon startIdx ratio anglePi separation = [polygon] := by
  unfold bisectPoly
  by_cases hpre : polygon.length < 3 ∨ polygon.length ≤ startIdx
  · rw [if_pos hpre]
  · rw [if_neg hpre]
    by_cases hlen : (cutIntersections polygon
        (cutLine ops polygon startIdx ratio anglePi).1
        (cutLine ops polygon startIdx ratio anglePi).2).length ≠ 2
    · rw [if_pos hlen]
    · rw [if_neg hlen]
      rcases h with h | h
      · exact absurd h hlen
      · simp [h.1, h.2]

/-- Witness for C5: with the trivial machine primitives the cut line is
degenerate (zero direction), so no edge of the triangle intersects it and
the intersection count is 0 ≠ 2; `bisect_poly` hands back the triangle. -/
theorem C5_bisect_degenerate_returns_input_witness :
    bisectPoly trivOps [⟨0, 0⟩, ⟨1, 0⟩, ⟨0, 1⟩] 0 (1/2) 0 0 = [[⟨0, 0⟩, ⟨1, 0⟩, ⟨0, 1⟩]] :=
  C5_bisect_degenerate_returns_input trivOps [⟨0, 0⟩, ⟨1, 0⟩, ⟨0, 1⟩] 0 (1/2) 0 0
    (Or.inl (by decide))

/-- C6 counterexample: with top-level `alley_chance = 1` and
`max_depth = 4`, the threshold actually used at a depth-2 node is
`3/8` — the decay factors compound — whereas the claimed formula
`alley_chance · (1 - depth/max_depth)` gives `1/2`. -/
theorem C6_alley_chance_counterexample :
    usedAlleyChance 1 4 2 ≠ alleyDecayed 1 2 4 := by
  norm_num [usedAlleyChance, alleyChanceParamAt, alleyDecayed]

/-- C6 (amended): because each recursive call passes down the
already-decayed chance, the threshold used at a depth-`d` node is the
product of all decay factors up to `d`:
`alley_chance · ∏_{j=0}^{d} (1 - j/max_depth)` (not the single-factor
linear decay). -/
theorem C6_alley_chance_compounds (c0 : ℚ) (maxDepth d : ℕ) :
    usedAlleyChance c0 maxDepth d =
      c0 * ∏ j in Finset.range (d + 1), (1 - (j : ℚ) / (maxDepth : ℚ)) := by
  induction d with
  | zero =>
    simp [usedAlleyChance, alleyChanceParamAt, alleyDecayed]
  | succ n ih =>
    have hstep : alleyChanceParamAt c0 maxDepth (n + 1) = usedAlleyChance c0 maxDepth n := rfl
    rw [usedAlleyChance, hstep, alleyDecayed, ih,
      Finset.prod_range_succ (fun j => 1 - (j : ℚ) / (maxDepth : ℚ)) (n + 1)]
    push_cast
    ring


/-- One relaxation step never changes the number of regular points. -/
theorem prelaxStep_length (tri : List V2 → List Tri) (regular fixed : List V2)
    (width height : ℚ) :
    (prelaxStep tri regular fixed width height).length = regular.length := by
  simp [prelaxStep]

/-- Iterating the relaxation step preserves the regular-point count. -/
theorem prelax_iterate_length (tri : List V2 → List Tri) (fixed : List V2)
    (width height : ℚ) (steps : ℕ) :
    ∀ regular : List V2,
      ((fun reg => prelaxStep tri reg fixed width height)^[steps] regular).length =
        regular.length := by
  induction steps with
  | zero => intro regular; simp
  | succ n ihn =>
    intro regular
    rw [Function.iterate_succ_apply]
    rw [ihn (prelaxStep tri regular fixed width height)]
    exact prelaxStep_length tri regular fixed width height

/-- Frame property of the relaxation, for any triangulation oracle. -/
theorem prelaxWith_frame (tri : List V2 → List Tri) (regular fixed : List V2)
    (steps : ℕ) (width height : ℚ) :
    (prelaxWith tri regular fixed steps width height).length =
      regular.length + fixed.length ∧
    (prelaxWith tri regular fixed steps width height).drop regular.length = fixed := by
  have hlen := prelax_iterate_length tri fixed width height steps regular
  constructor
  · unfold prelaxWith
    rw [List.length_append, hlen]
  · unfold prelaxWith
    rw [← hlen]
    exact List.drop_left _ _

/-- C3: `prelax` returns `regular.len + fixed.len` points and its suffix
starting at `regular.len` is exactly the input fixed points, in order,
unmodified by every relaxation iteration; only the regular prefix can
move. -/
theorem C3_prelax_fixed_suffix (regular fixed : List V2) (steps : ℕ)
    (width height : ℚ) :
    (prelax regular fixed steps width height).length =
      regular.length + fixed.length ∧
    (prelax regular fixed steps width height).drop regular.length = fixed :=
  prelaxWith_frame delaunayFaces regular fixed steps width height



/-- `firstClusterIdx` only produces indices below the cluster count. -/
theorem firstClusterIdx_lt (cls : List (List (ℕ × V2))) (i : ℕ) :
    ∀ n, firstClusterIdx cls i = some n → n < cls.length := by
  induction cls with
  | nil => intro n h; simp [firstClusterIdx] at h
  | cons cl rest ih =>
    intro n h
    unfold firstClusterIdx at h
    by_cases hc : cl.any (fun c => c.1 = i)
    · rw [if_pos hc] at h
      simp only [Option.some.injEq] at h
      subst h
      simp
    · rw [if_neg hc] at h
      rcases hr : firstClusterIdx rest i with _ | m
      · rw [hr] at h
        simp at h
      · rw [hr] at h
        simp at h
        have := ih m hr
        simp only [List.length_cons]
        omega

/-- `dedupPush` preserves an upper bound on the members. -/
theorem dedupPush_bound (acc : List ℕ) (x bound : ℕ)
    (hacc : ∀ i ∈ acc, i < bound) (hx : x < bound) :
    ∀ i ∈ dedupPush acc x, i < bound := by
  unfold dedupPush
  split
  · exact hacc
  · intro i hi
    rcases List.mem_append.mp hi with h | h
    · exact hacc i h
    · rw [List.mem_singleton.mp h]
      exact hx

/-- Every index collected for a generator's cell is a valid merged index. -/
theorem cellIndicesFor_lt (t : ℚ) (faces : List Tri) (p : V2) :
    ∀ i ∈ cellIndicesFor t faces p,
      i < (mergeClusters t (faceCircumcenters faces)).length := by
  unfold cellIndicesFor
  generalize hcls : mergeClusters t (faceCircumcenters faces) = cls
  suffices h : ∀ (l : List (ℕ × Tri)) (acc : List ℕ), (∀ i ∈ acc, i < cls.length) →
      ∀ i ∈ l.foldl (fun acc fi =>
        if fi.2.1 = p ∨ fi.2.2.1 = p ∨ fi.2.2.2 = p then
          match firstClusterIdx cls fi.1 with
          | some newIdx => dedupPush acc newIdx
          | none => acc
        else acc) acc, i < cls.length by
    intro i hi
    exact h faces.enum [] (by simp) i hi
  intro l
  induction l with
  | nil =>
    intro acc hacc
    simpa using hacc
  | cons head tail ih =>
    intro acc hacc
    rw [List.foldl_cons]
    apply ih
    by_cases hcond : head.2.1 = p ∨ head.2.2.1 = p ∨ head.2.2.2 = p
    · rw [if_pos hcond]
      rcases hfc : firstClusterIdx cls head.1 with _ | m
      · exact hacc
      · exact dedupPush_bound acc m cls.length hacc (firstClusterIdx_lt cls head.1 m hfc)
    · rw [if_neg hcond]
      exact hacc

/-- C2: in every output of the Voronoi builder — for any face list the
external triangulation can produce (instantiating
`faces := delaunayFaces generators` gives the `vpoly` composition) —
every index of every cell is strictly below the length of the returned
`points` list, and every cell has at least 3 indices. -/
theorem C2_cell_indices_in_bounds (faces : List Tri) (generators boundary : List V2)
    (t : ℚ) :
    ∀ cell ∈ (vpolyWith faces generators boundary t).cells,
      3 ≤ cell.length ∧
      ∀ i ∈ cell, i < (vpolyWith faces generators boundary t).points.length := by
  intro cell hcell
  have hpts : (vpolyWith faces generators boundary t).points.length =
      (mergeClusters t (faceCircumcenters faces)).length := by
    simp [vpolyWith, mergedPoints]
  simp only [vpolyWith] at hcell
  rcases List.mem_filterMap.mp hcell with ⟨p, hp, hsome⟩
  by_cases h1 : (cellIndicesFor t faces p).length < 3
  · rw [if_pos h1] at hsome
    simp at hsome
  · rw [if_neg h1] at hsome
    by_cases h2 : !pointInPolygon p boundary
    · rw [if_pos h2] at hsome
      simp at hsome
    · rw [if_neg h2] at hsome
      by_cases h3 : isBoundaryGenerator faces p = true
      · rw [if_pos h3] at hsome
        simp at hsome
      · rw [if_neg h3] at hsome
        by_cases h4 : (cellIndicesFor t faces p).any (fun ci =>
            ((mergedPoints t (faceCircumcenters faces)).getD ci 0).x ^ 2 +
              ((mergedPoints t (faceCircumcenters faces)).getD ci 0).y ^ 2 >
              (canvasWidth * 3) ^ 2) = true
        · rw [if_pos h4] at hsome
          simp at hsome
        · rw [if_neg h4] at hsome
          simp only [Option.some.injEq] at hsome
          subst hsome
          have hperm : List.Perm (sortByAngle p
              (mergedPoints t (faceCircumcenters faces)) (cellIndicesFor t faces p))
              (cellIndicesFor t faces p) := List.perm_insertionSort _ _
          constructor
          · rw [hperm.length_eq]
            omega
          · intro i hi
            rw [hpts]
            exact cellIndicesFor_lt t faces p i (hperm.mem_iff.mp hi)

set_option maxRecDepth 100000 in
set_option maxHeartbeats 2000000 in
/-- Witness for C2: an explicit sphere-like face complex over four points
(every edge shared by two faces, so no cell is filtered as a boundary
cell); the first emitted cell is `[0, 3, 1]` and the theorem bounds its
indices by the merged point count. -/
theorem C2_cell_indices_in_bounds_witness :
    3 ≤ ([0, 3, 1] : List ℕ).length ∧ ∀ i ∈ ([0, 3, 1] : List ℕ),
      i < (vpolyWith
        [(⟨-3, 0⟩, ⟨3, 0⟩, ⟨0, 1⟩), (⟨-3, 0⟩, ⟨0, 4⟩, ⟨0, 1⟩),
          (⟨3, 0⟩, ⟨0, 4⟩, ⟨0, 1⟩), (⟨-3, 0⟩, ⟨3, 0⟩, ⟨0, 4⟩)]
        [⟨-3, 0⟩, ⟨3, 0⟩, ⟨0, 4⟩, ⟨0, 1⟩]
        [⟨-10, -10⟩, ⟨10, -10⟩, ⟨10, 10⟩, ⟨-10, 10⟩] (1/100)).points.length :=
  C2_cell_indices_in_bounds
    [(⟨-3, 0⟩, ⟨3, 0⟩, ⟨0, 1⟩), (⟨-3, 0⟩, ⟨0, 4⟩, ⟨0, 1⟩),
      (⟨3, 0⟩, ⟨0, 4⟩, ⟨0, 1⟩), (⟨-3, 0⟩, ⟨3, 0⟩, ⟨0, 4⟩)]
    [⟨-3, 0⟩, ⟨3, 0⟩, ⟨0, 4⟩, ⟨0, 1⟩]
    [⟨-10, -10⟩, ⟨10, -10⟩, ⟨10, 10⟩, ⟨-10, 10⟩] (1/100) [0, 3, 1] (by decide)



/-- Every cluster produced by the greedy merge has its first member drawn
from the input list. -/
theorem greedyClusters_head_mem (t : ℚ) :
    ∀ (n : ℕ) (l : List (ℕ × V2)), l.length ≤ n →
      ∀ cl ∈ greedyClusters t l, cl.headD (0, 0) ∈ l := by
  intro n
  induction n with
  | zero =>
    intro l hl cl hcl
    have : l = [] := List.length_eq_zero.mp (by omega)
    subst this
    simp [greedyClusters, greedyClustersFuel] at hcl
  | succ n ih =>
    intro l hl cl hcl
    rcases l with _ | ⟨c, rest⟩
    · simp [greedyClusters, greedyClustersFuel] at hcl
    · rw [greedyClusters_cons] at hcl
      rcases List.mem_cons.mp hcl with rfl | hcl
      · simp
      · have hlen : (rest.filter (fun j => !distLt c.2 j.2 t)).length ≤ n := by
          have := List.length_filter_le (fun j => !distLt c.2 j.2 t) rest
          simp only [List.length_cons] at hl
          omega
        have hmem := ih (rest.filter (fun j => !distLt c.2 j.2 t)) hlen cl hcl
        exact List.mem_cons_of_mem c (List.mem_of_mem_filter hmem)

/-- The cluster representatives of the greedy merge are pairwise at least
the threshold apart: when a later representative had been within the
threshold of an earlier one, the earlier pass would have claimed it. -/
theorem greedyClusters_reps_far (t : ℚ) :
    ∀ (n : ℕ) (l : List (ℕ × V2)), l.length ≤ n →
      pairwiseFar t ((greedyClusters t l).map (fun cl => (cl.headD (0, 0)).2)) = true := by
  intro n
  induction n with
  | zero =>
    intro l hl
    have : l = [] := List.length_eq_zero.mp (by omega)
    subst this
    simp [greedyClusters, greedyClustersFuel, pairwiseFar]
  | succ n ih =>
    intro l hl
    rcases l with _ | ⟨c, rest⟩
    · simp [greedyClusters, greedyClustersFuel, pairwiseFar]
    · rw [greedyClusters_cons]
      simp only [List.map_cons, List.headD_cons]
      rw [pairwiseFar]
      have hlen : (rest.filter (fun j => !distLt c.2 j.2 t)).length ≤ n := by
        have := List.length_filter_le (fun j => !distLt c.2 j.2 t) rest
        simp only [List.length_cons] at hl
        omega
      rw [Bool.and_eq_true]
      constructor
      · rw [List.all_eq_true]
        intro q hq
        rcases List.mem_map.mp hq with ⟨cl, hcl, hqeq⟩
        have hhead := greedyClusters_head_mem t n
          (rest.filter (fun j => !distLt c.2 j.2 t)) hlen cl hcl
        have := (List.mem_filter.mp hhead).2
        rw [← hqeq]
        simpa using this
      · exact ih (rest.filter (fun j => !distLt c.2 j.2 t)) hlen

/-- C1 (amended): the merge pass guarantees the separation only for the
cluster representatives (the first circumcenter claimed by each cluster):
those are pairwise at least `merge_threshold` apart.  The returned
`points` are the cluster averages, and averaging can pull two cluster
centres to within the threshold (see the counterexample). -/
theorem C1_cluster_representatives_far (t : ℚ) (ccs : List V2) :
    pairwiseFar t (clusterReps t ccs) = true :=
  greedyClusters_reps_far t ccs.enum.length ccs.enum le_rfl



set_option maxRecDepth 100000 in
set_option maxHeartbeats 4000000 in
/-- C1 counterexample: for the four generators below (a triangle with one
interior point, in general position — three Delaunay faces), with
`merge_threshold = 33/5`, the circumcenters are `(0,-4)`, `(-13/6, 5/2)`
and `(13/6, 5/2)`; the first pass keeps `(0,-4)` alone, the second fuses
the two others into their average `(0, 5/2)`, and the two returned points
are `13/2 < 33/5` apart — closer than the merge threshold. -/
theorem C1_merged_points_too_close_counterexample :
    pairwiseFar (33/5) (vpoly [⟨-3, 0⟩, ⟨3, 0⟩, ⟨0, 4⟩, ⟨0, 1⟩]
      [⟨-10, -10⟩, ⟨10, -10⟩, ⟨10, 10⟩, ⟨-10, 10⟩] (33/5)).points = false := by
  decide



/-- C8: the pipeline is deterministic.  Every stage of the embedding is a
pure function of its arguments and of the seed-indexed draw stream
(`seedStream` models `StdRng::seed_from_u64`: the stream of draws is a
function of the seed and nothing else), and the embedding threads no
other state, so two runs with identical seed, parameters, fixed
generators and boundary produce identical spiral points and an identical
`SkeletonData` — generator positions, circumcenters (`points`) and cell
index lists alike. -/
theorem C8_pipeline_deterministic (ops : FloatOps) (tri : List V2 → List Tri)
    (seedStream : UInt64 → ℕ → ℚ) (seed seed' : UInt64) (count count' : ℕ)
    (width width' height height' spread spread' : ℚ) (fixed fixed' : List V2)
    (steps steps' : ℕ) (boundary boundary' : List V2) (t t' : ℚ)
    (hseed : seed = seed') (hcount : count = count') (hw : width = width')
    (hh : height = height') (hs : spread = spread') (hfix : fixed = fixed')
    (hsteps : steps = steps') (hb : boundary = boundary') (ht : t = t') :
    pgen ops (seedStream seed) count width height spread =
      pgen ops (seedStream seed') count' width' height' spread' ∧
    pipeline ops tri seedStream seed count width height spread fixed steps
        boundary t =
      pipeline ops tri seedStream seed' count' width' height' spread' fixed'
        steps' boundary' t' := by
  subst hseed hcount hw hh hs hfix hsteps hb ht
  exact ⟨rfl, rfl⟩

/-- Witness for C8 at concrete equal inputs. -/
theorem C8_pipeline_deterministic_witness :
    pgen trivOps ((fun _ _ => (0 : ℚ)) (0 : UInt64)) 2 1 1 1 =
      pgen trivOps ((fun _ _ => (0 : ℚ)) (0 : UInt64)) 2 1 1 1 ∧
    pipeline trivOps (fun _ => []) (fun _ _ => (0 : ℚ)) 0 2 1 1 1 [] 1 [] 1 =
      pipeline trivOps (fun _ => []) (fun _ _ => (0 : ℚ)) 0 2 1 1 1 [] 1 [] 1 :=
  C8_pipeline_deterministic trivOps (fun _ => []) (fun _ _ => (0 : ℚ)) 0 0 2 2
    1 1 1 1 1 1 [] [] 1 1 [] [] 1 1 rfl rfl rfl rfl rfl rfl rfl rfl rfl


end WeaverGen
